import Mathlib

/-!
Verification of the confluence-blog-downloader repository
(`src/confluenceObjects.py`) against its natural-language specification.

The Python code is shallowly embedded: Python `str` values are Lean
`String`s, and every string/`pathlib` operation the code uses is
re-implemented by structural recursion over the character list `String.data`
so that all definitions are executable and kernel-reducible.  Stateful code
(the shared `Server.posts` buffer, the pagination loop, the per-post scrape
loop) is embedded as explicit state passing; remote HTTP endpoints are
passed in as explicit functions; code that can raise returns `Option` or
`Except`.
-/

namespace Confluence

/-! ### Python string primitives (models of `str` methods and `re` calls) -/

/-- Splitting a character list at every occurrence of `sep`, keeping empty
pieces, like Python `str.split(sep)` for a one-character separator. -/
def charsSplitOnAux (sep : Char) : List Char → List Char → List (List Char)
  | [], acc => [acc.reverse]
  | c :: cs, acc =>
    if c = sep then acc.reverse :: charsSplitOnAux sep cs []
    else charsSplitOnAux sep cs (c :: acc)

/-- Python `s.split(sep)` for a single-character separator `sep`; e.g.
`"a?b".split('?') == ["a", "b"]` and `"ab".split('?') == ["ab"]`. -/
def pySplit (sep : Char) (s : String) : List String :=
  (charsSplitOnAux sep s.data []).map String.mk

/-- Python `s.lstrip(chars)`: drop from the left every character in `bad`. -/
def pyLstrip (bad : List Char) (s : String) : String :=
  String.mk (s.data.dropWhile (· ∈ bad))

/-- Drop from the right of a character list every character in `bad`. -/
def charsRstrip (bad : List Char) (l : List Char) : List Char :=
  (l.reverse.dropWhile (· ∈ bad)).reverse

/-- Python `s.strip(chars)`: drop characters in `bad` from both ends. -/
def pyStrip (bad : List Char) (s : String) : String :=
  String.mk (charsRstrip bad (s.data.dropWhile (· ∈ bad)))

/-- Whether the character list `s` starts with the list `pat`. -/
def charsStartsWith : List Char → List Char → Bool
  | [], _ => true
  | _ :: _, [] => false
  | p :: ps, c :: cs => p = c && charsStartsWith ps cs

/-- Joining string pieces with the single-character separator `sep`
(inverse of `pySplit sep`). -/
def joinWithChar (sep : Char) : List String → String
  | [] => ""
  | [p] => p
  | p :: ps => p ++ String.mk [sep] ++ joinWithChar sep ps

/-! ### Models of the `pathlib.PurePosixPath` operations the code uses -/

/-- Path components as `pathlib` parses a relative POSIX path: split on `/`,
dropping empty components and `.` components. -/
def pathParts (s : String) : List String :=
  (pySplit '/' s).filter (fun p => p != "" && p != ".")

/-- Python `Path(s).parent` rendered as a string, for the relative paths the
code produces after `lstrip("/")`: everything before the last component, or
`"."` when there is at most one component. -/
def pathParent (s : String) : String :=
  match (pathParts s).dropLast with
  | [] => "."
  | ps => joinWithChar '/' ps

/-- Python `Path(s).name`: the last path component (empty for an empty path). -/
def pathName (s : String) : String :=
  (pathParts s).getLastD ""

/-- Python `PurePath.suffixes` on a single path component, per CPython:
no suffixes when the name ends with a dot; otherwise leading dots are
stripped and each remaining dot starts one suffix. -/
def pySuffixes (name : String) : List String :=
  if name.data.getLast? = some '.' then []
  else
    match pySplit '.' (pyLstrip ['.'] name) with
    | [] => []
    | _ :: rest => rest.map (fun sfx => "." ++ sfx)

/-- Splitter around the last `'.'` of a character list: returns the pieces
before and after the last dot when there is one. -/
def charsLastDotSplit : List Char → Option (List Char × List Char)
  | [] => none
  | c :: cs =>
    match charsLastDotSplit cs with
    | some (b, a) => some (c :: b, a)
    | none => if c = '.' then some ([], cs) else none

/-- Python `PurePath.stem` on a single path component: the name up to the
last dot, except that a leading dot or a trailing dot is not a suffix
separator. -/
def pyStem (name : String) : String :=
  match charsLastDotSplit name.data with
  | some (b, a) => if b.isEmpty || a.isEmpty then name else String.mk b
  | none => name

/-- Python `folder.joinpath(name)` rendered as a string, for a relative
`folder` as produced by `pathParent` and a nonempty relative `name`:
`pathlib` drops a plain `"."` folder when joining. -/
def pathJoin (folder name : String) : String :=
  if folder = "." then name else folder ++ "/" ++ name

/-! ### The regex `(?<=version=)\d+` from `_format_attachment_filename` -/

/-- Leftmost match of the Python regex `(?<=version=)\d+`: scanning left to
right, the first maximal nonempty digit run immediately preceded by the
literal text `version=`. -/
def findVersionChars : List Char → Option (List Char)
  | [] => none
  | c :: cs =>
    let ds := ((c :: cs).drop ("version=".data.length)).takeWhile (·.isDigit)
    if charsStartsWith "version=".data (c :: cs) && !ds.isEmpty then some ds
    else findVersionChars cs

/-- The version number `re.search('(?<=version=)\d+', details)` extracts,
or `none` when the regex does not match (Python then raises
`AttributeError` on `.group(0)`). -/
def pyFindVersion (details : String) : Option String :=
  (findVersionChars details.data).map String.mk

/-! ### `ConfluenceObject._slugify` (src/confluenceObjects.py lines 314-317) -/

/-- ASCII model of the Python regex class `\w` (word character). -/
def isWordChar (c : Char) : Bool := c.isAlphanum || c = '_'

/-- ASCII model of the Python regex class `\s` (whitespace). -/
def isPySpace (c : Char) : Bool :=
  c = ' ' || c = '\t' || c = '\n' || c = '\r' || c = '\x0b' || c = '\x0c'

/-- State machine behind `collapseWs`: `inRun` records whether the previous
character was whitespace (so the current run has already emitted its `_`). -/
def collapseWsAux (inRun : Bool) : List Char → List Char
  | [] => []
  | c :: cs =>
    if isPySpace c then
      if inRun then collapseWsAux true cs else '_' :: collapseWsAux true cs
    else c :: collapseWsAux false cs

/-- Python `re.sub(r'[\s]+', '_', s)`: replace every maximal whitespace run
by a single underscore. -/
def collapseWs (l : List Char) : List Char := collapseWsAux false l

/-- ConfluenceObject._slugify, translated from src/confluenceObjects.py lines
314-317.  The Unicode normalization `unicodedata.normalize('NFKC', ·)` is an
external stdlib collaborator and is passed in as the function `nfkc`; the
remaining steps are: delete every character outside `[_\w\s-]`, collapse
whitespace runs to single underscores, and strip `-`/`_` from both ends. -/
def slugify (nfkc : String → String) (value : String) : String :=
  let v := (nfkc value).data
  let v := v.filter (fun c => isWordChar c || isPySpace c || c = '-')
  let v := collapseWs v
  String.mk (charsRstrip ['-', '_'] (v.dropWhile (· ∈ (['-', '_'] : List Char))))

/-! ### `ConfluenceObject._format_attachment_filename` (lines 349-356) -/

/-- ConfluenceObject._format_attachment_filename, translated from
src/confluenceObjects.py lines 349-356.  `none` models the method raising:
Python raises `ValueError` when the final URL component does not split into
exactly a name and a query around `?`, and `AttributeError` when the regex
finds no version number — the failures the specification groups under
`MalformedAttachmentURL`. -/
def format_attachment_filename (nfkc : String → String) (url : String) :
    Option String :=
  let folder := pathParent (pyLstrip ['/'] url)
  match pySplit '?' (pathName url) with
  | [name, details] =>
    match pyFindVersion details with
    | some version =>
      let ext := pySuffixes name
      let slug := slugify nfkc (pyStem name)
      some (pathJoin folder (slug ++ ("_version" ++ version) ++ String.join ext))
    | none => none
  | _ => none

/-- The query string of an attachment URL: the part of the final URL
component after its first `?`, when a `?` is present. -/
def queryStringOf (url : String) : Option String :=
  match pySplit '?' (pathName url) with
  | [] => none
  | [_] => none
  | _ :: rest => some (joinWithChar '?' rest)

/-- Whether the URL's query string carries a version parameter the code's
regex can extract. -/
def hasVersionParam (url : String) : Bool :=
  match queryStringOf url with
  | none => false
  | some q => (pyFindVersion q).isSome

/-! ### The listed-post records and `Server.export_list` (lines 116-136) -/

/-- One row of the scraped list of posts: the dict
`{'ID': post['id'], 'type': post['type'], 'title': post['title']}` that
`Server.scrape_list` appends to `Server.posts`. -/
structure ListedEntry where
  ID : String
  type : String
  title : String
deriving DecidableEq, Repr

/-- The `ID` column of a buffer of rows. -/
def idsOf (l : List ListedEntry) : List String := l.map (·.ID)

/-- Model of `pandas.DataFrame.drop_duplicates(subset='ID')`: keep the first
row for each ID, here with an accumulator of IDs already seen. -/
def dropDupIDAux (seen : List String) : List ListedEntry → List ListedEntry
  | [] => []
  | e :: es =>
    if e.ID ∈ seen then dropDupIDAux seen es
    else e :: dropDupIDAux (e.ID :: seen) es

/-- `drop_duplicates(subset='ID')` on a buffer of rows. -/
def dropDupID (l : List ListedEntry) : List ListedEntry := dropDupIDAux [] l

/-- The merged table `pd.concat([df, old]).drop_duplicates(subset='ID')` that
`export_list` writes when merging with an existing file. -/
def mergeLists (new old : List ListedEntry) : List ListedEntry :=
  dropDupID (new ++ old)

/-- Server.export_list, translated from src/confluenceObjects.py lines
116-136.  The filesystem is passed in as `existing`: the parsed rows of the
target csv when that file exists.  The result is the written file — `none`
when the buffer is empty and nothing is written, otherwise the csv name
`list_{type of the first buffered row}s.csv` paired with the written rows. -/
def export_list (posts : List ListedEntry) (existing : Option (List ListedEntry))
    (merge : Bool) : Option (String × List ListedEntry) :=
  match posts with
  | [] => none
  | p :: _ =>
    let filename := "list_" ++ p.type ++ "s.csv"
    let df :=
      match merge, existing with
      | true, some old => mergeLists posts old
      | _, _ => posts
    some (filename, df)

/-! ### `Server.scrape_list` (lines 96-114) and the shared `posts` buffer -/

/-- A failed request: `_request_wrapper` asserts `response.status_code == 200`
and raises otherwise — the failure the specification calls `TransportError`. -/
structure TransportError where
  status : Nat
deriving DecidableEq, Repr

/-- The fields of one page of a paginated list response that `scrape_list`
consumes: the `results` records (already projected to their `id`, `type`,
`title` fields as `scrape_list` does), whether `_links` carries a `next`
link, and the pagination metadata `start`/`size`/`limit` read by the stop
predicate. -/
structure ApiPage where
  results : List ListedEntry
  hasNext : Bool
  start : Nat
  size : Nat
  limit : Nat
deriving DecidableEq, Repr

/-- Outcome of the pagination loop of `scrape_list`. -/
inductive LoopOutcome where
  | completed
  | raised (e : TransportError)
  | fuelExhausted
deriving DecidableEq, Repr

/-- The pagination loop of `Server.scrape_list` (lines 102-112): fetch page
`i`, append each record of its `results` to the buffer, break when there is
no `next` link or the stop predicate fires, otherwise continue with the next
page.  The remote server is the function `fetch` from page numbers to
responses; `fuel` bounds the number of round trips so the loop is total (the
Python loop simply never terminates on an endless chain of `next` links). -/
def scrape_list_loop (fetch : Nat → Except TransportError ApiPage)
    (stop : ApiPage → Bool) :
    Nat → Nat → List ListedEntry → List ListedEntry × LoopOutcome
  | 0, _, buf => (buf, .fuelExhausted)
  | fuel + 1, i, buf =>
    match fetch i with
    | .error e => (buf, .raised e)
    | .ok page =>
      let buf2 := buf ++ page.results
      if !page.hasNext || stop page then (buf2, .completed)
      else scrape_list_loop fetch stop fuel (i + 1) buf2

/-- Server.scrape_list (lines 96-114): run the pagination loop inside `try:`
starting from the current shared buffer `posts0`, and in the `finally:`
block export the accumulated buffer.  The result is the final buffer, the
loop outcome, and the file written by the `export_list` call of the
`finally:` block. -/
def scrape_list (fetch : Nat → Except TransportError ApiPage)
    (stop : ApiPage → Bool) (fuel : Nat) (posts0 : List ListedEntry)
    (existing : Option (List ListedEntry)) (merge : Bool) :
    List ListedEntry × LoopOutcome × Option (String × List ListedEntry) :=
  let r := scrape_list_loop fetch stop fuel 0 posts0
  (r.1, r.2, export_list r.1 existing merge)

/-! ### Claim C10: the shared class-level `Server.posts` buffer -/

/-- Arguments of one `scrape_list` call in a sequence of listing operations:
the remote behaviour seen by that call, plus the on-disk file and merge flag
of its `finally:` export. -/
structure ListCall where
  fetch : Nat → Except TransportError ApiPage
  stop : ApiPage → Bool
  fuel : Nat
  existing : Option (List ListedEntry)
  merge : Bool

/-- The entries one call appends to the shared buffer (independent of the
buffer it starts from, by `scrape_list_loop_append`). -/
def callBatch (c : ListCall) : List ListedEntry :=
  (scrape_list_loop c.fetch c.stop c.fuel 0 []).1

/-- A sequence of `scrape_list` calls against the shared class-level
`Server.posts` buffer (src/confluenceObjects.py line 41): `posts` is a class
attribute mutated only by `append`, so every call continues from the buffer
the previous calls left, and no call clears it.  Returns the per-call
(buffer snapshot at export time, written file) events and the final
buffer. -/
def run_scrape_lists : List ListCall → List ListedEntry →
    List (List ListedEntry × Option (String × List ListedEntry)) ×
      List ListedEntry
  | [], buf => ([], buf)
  | c :: cs, buf =>
    let r := scrape_list_loop c.fetch c.stop c.fuel 0 buf
    let rest := run_scrape_lists cs r.1
    ((r.1, export_list r.1 c.existing c.merge) :: rest.1, rest.2)

/-! ### `Blog.scrape_posts` (lines 166-199) and `BlogPost.scrape_post` (362-368) -/

/-- Tail of a Python integer literal after its first digit: digits, possibly
with single underscores between digits. -/
def digitsUnd : List Char → Bool
  | [] => true
  | '_' :: [] => false
  | '_' :: c :: cs => c.isDigit && digitsUnd cs
  | c :: cs => c.isDigit && digitsUnd cs

/-- A nonempty digit string in which single underscores may separate digits. -/
def isUnderscoredDigits : List Char → Bool
  | [] => false
  | c :: cs => c.isDigit && digitsUnd cs

/-- Whether Python `int(s)` succeeds on the string `s`: optional surrounding
whitespace, an optional sign, then a nonempty (underscore-separated) digit
string. -/
def isIntLike (s : String) : Bool :=
  match (pyStrip [' ', '\t', '\n', '\r', '\x0b', '\x0c'] s).data with
  | '+' :: rest => isUnderscoredDigits rest
  | '-' :: rest => isUnderscoredDigits rest
  | rest => isUnderscoredDigits rest

/-- The remote data one post's scrape consumes, fetch by fetch: `info` is the
content fetch of `ConfluenceObject._scrape_info` run by the `BlogPost`
constructor, `attachments` the child-attachment work of
`_scrape_attachments`, `comments` the child-comment (sub)tree fetches of
`_scrape_comments`. -/
structure PostWorld where
  info : String → Except TransportError Unit
  attachments : String → Except TransportError Unit
  comments : String → Except TransportError Unit

/-- Construction of a `BlogPost` followed by `BlogPost.scrape_post`
(lines 362-368): fetch the post data, then its attachments, then its
comment tree; formatting and exporting the HTML are pure.  A raised
`TransportError` propagates to the caller — none of these calls sits in a
`try:` in `scrape_post` or `scrape_posts`. -/
def scrape_post (w : PostWorld) (id : String) : Except TransportError Unit := do
  w.info id
  w.attachments id
  w.comments id

/-- What aborts the loop of `Blog.scrape_posts`. -/
inductive BatchError where
  | transport (e : TransportError)
  | attributeError
deriving DecidableEq, Repr

/-- The loop of Blog.scrape_posts (lines 191-198) followed by the
`create_index` call (line 199).  For each listed id the loop runs
`try: int(post_ID)`.  On parse failure the `except:` arm executes
`self.blog._warn(...)` — but a `Blog` object has no attribute `blog`, so this
line itself raises `AttributeError`.  On parse success the `else:` arm
constructs and scrapes the post with no surrounding handler.  Either
exception propagates and aborts the remaining loop.  Returns the ids fully
scraped and exported, the propagated error if any, and whether the final
`create_index` call was reached. -/
def scrape_posts (w : PostWorld) :
    List String → List String → List String × Option BatchError × Bool
  | [], scraped => (scraped, none, true)
  | id :: rest, scraped =>
    if isIntLike id then
      match scrape_post w id with
      | .ok _ => scrape_posts w rest (scraped ++ [id])
      | .error e => (scraped, some (.transport e), false)
    else (scraped, some .attributeError, false)

/-! ### Claim C1 -/

/-- A remote world in which every fetch succeeds except the comment listing of
post `"2"`, which fails with status 500. -/
def commentFail2World : PostWorld :=
  ⟨fun _ => .ok (), fun _ => .ok (),
   fun i => if i = "2" then .error ⟨500⟩ else .ok ()⟩

/-! ### Claim C7 -/

/-- A remote world in which every fetch succeeds. -/
def allOkPostWorld : PostWorld := ⟨fun _ => .ok (), fun _ => .ok (), fun _ => .ok ()⟩

/-! ### The comment tree: `_scrape_comments` (319-323), `Comment.__init__` (450-456) -/

/-- The remote comment forest under one content item, as the chain of
`/child/comment` responses presents it: each node is a comment id together
with the children its own `/child/comment` listing returns.  Finite by
construction — the Python recursion, too, terminates only on finite comment
trees. -/
inductive RemoteTree where
  | node (id : String) (children : List RemoteTree)

/-- A constructed `Comment` restricted to the fields C2 is about: its id, the
`depth` passed to `Comment.__init__`, and its scraped children. -/
structure CommentNode where
  ID : String
  depth : Nat
  comments : List CommentNode

mutual
/-- Comment.__init__ (lines 452-456) with depth `d`: store the depth, then
`_scrape_comments` builds this comment's children with depth
`self.depth + 1` (line 322, the non-`BlogPost` branch). -/
def comment_scrape (d : Nat) : RemoteTree → CommentNode
  | .node i ch => ⟨i, d, comments_scrape (d + 1) ch⟩

/-- The list comprehension of `_scrape_comments` (line 323): one `Comment`
per returned record, all built with the same depth. -/
def comments_scrape (d : Nat) : List RemoteTree → List CommentNode
  | [] => []
  | t :: ts => comment_scrape d t :: comments_scrape d ts
end

/-- `_scrape_comments` run on a `BlogPost` (line 322,
`isinstance(self, BlogPost)` branch): root-level comments are built with
depth 0. -/
def blogpost_scrape_comments (ts : List RemoteTree) : List CommentNode :=
  comments_scrape 0 ts

/-- The depth invariant: every child carries its parent's depth plus one,
recursively. -/
inductive DepthConsistent : CommentNode → Prop where
  | mk (n : CommentNode)
      (hdepth : ∀ c ∈ n.comments, c.depth = n.depth + 1)
      (hrec : ∀ c ∈ n.comments, DepthConsistent c) :
      DepthConsistent n

/-! ### `BlogPost._format_html` image rewriting (lines 426-434) -/

/-- Whether a character list contains `pat` as a contiguous substring. -/
def charsContainsSub : List Char → List Char → Bool
  | pat, [] => pat.isEmpty
  | pat, c :: cs => charsStartsWith pat (c :: cs) || charsContainsSub pat cs

/-- Step-bounded core of `pyReplace`; each recursive call consumes at least
one character, so fuel `|s|` is always enough. -/
def charsReplaceFuel (pat repl : List Char) : Nat → List Char → List Char
  | 0, s => s
  | _ + 1, [] => []
  | fuel + 1, c :: cs =>
    if charsStartsWith pat (c :: cs) && !pat.isEmpty then
      repl ++ charsReplaceFuel pat repl fuel ((c :: cs).drop pat.length)
    else c :: charsReplaceFuel pat repl fuel cs

/-- Python `s.replace(old, new)` for nonempty `old`: replace every
non-overlapping occurrence, scanning left to right. -/
def pyReplace (old new s : String) : String :=
  String.mk (charsReplaceFuel old.data new.data s.data.length s.data)

/-- A DOM node of the rendered document, as far as the image-rewriting step
reads it: a tag name, attributes, and children; text nodes carry neither. -/
inductive Dom where
  | text (s : String)
  | elem (tag : String) (attrs : List (String × String)) (children : List Dom)

/-- Attribute lookup on an element's attribute list. -/
def attrLookup (key : String) : List (String × String) → Option String
  | [] => none
  | (k, v) :: rest => if k = key then some v else attrLookup key rest

/-- The BeautifulSoup query `find_all('img', attrs={'data-image-src':
re.compile('/download/attachments/.*')})` matches an element iff it is an
`img` whose `data-image-src` value contains `/download/attachments/`
(a compiled pattern given for an attribute is matched with `re.search`). -/
def matchesAttachmentImg (tag : String) (attrs : List (String × String)) : Bool :=
  tag = "img" &&
    match attrLookup "data-image-src" attrs with
    | some v => charsContainsSub "/download/attachments/".data v.data
    | none => false

mutual
/-- The image-rewriting pass of `BlogPost._format_html` (lines 426-434) on a
DOM node: each matched `img` is replaced (as `img.replace_with(img_link)`
does) by `<a href=big><img src=small/></a>` where
`big = Path('..').joinpath(_format_attachment_filename(src))` and
`small = str(big).replace('/attachments/', '/thumbnails/')`; every other
node keeps its structure with its children rewritten in place.
`Except.error` models `_format_html` raising when
`_format_attachment_filename` raises on a matched URL. -/
def rewriteImgs (nfkc : String → String) : Dom → Except Unit Dom
  | .text s => .ok (.text s)
  | .elem tag attrs children =>
    if matchesAttachmentImg tag attrs then
      match attrLookup "data-image-src" attrs with
      | some u =>
        match format_attachment_filename nfkc u with
        | some p =>
          .ok (.elem "a" [("href", pathJoin ".." p)]
            [.elem "img"
              [("src", pyReplace "/attachments/" "/thumbnails/" (pathJoin ".." p))]
              []])
        | none => .error ()
      | none => .error ()
    else
      match rewriteImgsList nfkc children with
      | .ok cs => .ok (.elem tag attrs cs)
      | .error e => .error e

/-- The rewriting pass over a list of sibling nodes, in document order. -/
def rewriteImgsList (nfkc : String → String) : List Dom → Except Unit (List Dom)
  | [] => .ok []
  | d :: ds =>
    match rewriteImgs nfkc d with
    | .ok d2 =>
      match rewriteImgsList nfkc ds with
      | .ok ds2 => .ok (d2 :: ds2)
      | .error e => .error e
    | .error e => .error e
end

/-! ### `Blog.create_index` (lines 201-257) -/

/-- Lexicographic code-point comparison of character lists: the comparison
Python's `sorted` performs on same-directory `Path`s (it compares their
final name strings). -/
def charsLe : List Char → List Char → Bool
  | [], _ => true
  | _ :: _, [] => false
  | c :: cs, d :: ds => if c = d then charsLe cs ds else decide (c < d)

/-- Python string `<=` as a proposition. -/
def pyStrLe (a b : String) : Prop := charsLe a.data b.data = true

instance : DecidableRel pyStrLe := fun a b =>
  inferInstanceAs (Decidable (charsLe a.data b.data = true))

/-- The value of an ASCII digit character. -/
def digitVal (c : Char) : Nat := c.toNat - '0'.toNat

/-- Gregorian leap-year rule, as `datetime` implements it. -/
def isLeapYear (y : Nat) : Bool := (y % 4 = 0 && y % 100 ≠ 0) || y % 400 = 0

/-- Days in a month, as `datetime` validates day-of-month. -/
def daysInMonth (y m : Nat) : Nat :=
  if m = 2 then (if isLeapYear y then 29 else 28)
  else if m = 4 || m = 6 || m = 9 || m = 11 then 30 else 31

/-- The month name `date.strftime('%B')` produces, from the two digit
characters of the zero-padded month field; `""` for an out-of-range month. -/
def monthName2 (f g : Char) : String :=
  if f = '0' then
    if g = '1' then "January"
    else if g = '2' then "February"
    else if g = '3' then "March"
    else if g = '4' then "April"
    else if g = '5' then "May"
    else if g = '6' then "June"
    else if g = '7' then "July"
    else if g = '8' then "August"
    else if g = '9' then "September"
    else ""
  else if f = '1' then
    if g = '0' then "October"
    else if g = '1' then "November"
    else if g = '2' then "December"
    else ""
  else ""

/-- Parsing and reformatting of the date prefix in `create_index`
(lines 229-231): `datetime.strptime(post.name[:10], '%Y-%m-%d')` followed by
`strftime('%Y')` and `strftime('%B')`.  Returns the year string and month
name, or `none` when `strptime` raises (malformed prefix, month out of
range, day out of range for the month).  The prefix is taken in the
fixed-width form `YYYY-MM-DD` that the renderer's `date.isoformat()`
filenames always have (`strptime` would additionally accept short,
unpadded fields when the whole name is shorter than ten characters). -/
def parseDatePrefix (name : String) : Option (String × String) :=
  match name.data.take 10 with
  | [y1, y2, y3, y4, s1, m1, m2, s2, d1, d2] =>
    if y1.isDigit && y2.isDigit && y3.isDigit && y4.isDigit &&
        s1 = '-' && s2 = '-' && m1.isDigit && m2.isDigit &&
        d1.isDigit && d2.isDigit && monthName2 m1 m2 ≠ "" &&
        1 ≤ digitVal d1 * 10 + digitVal d2 &&
        digitVal d1 * 10 + digitVal d2 ≤
          daysInMonth
            (digitVal y1 * 1000 + digitVal y2 * 100 + digitVal y3 * 10 +
              digitVal y4)
            (digitVal m1 * 10 + digitVal m2) then
      some (String.mk [y1, y2, y3, y4], monthName2 m1 m2)
    else none
  | _ => none

/-- One emitted piece of the index document's `<main>`: a year heading
(`<h2>`), a month heading (`<h3>`), or a `<ul>` group of links in iteration
order. -/
inductive IdxItem where
  | yearH (y : String)
  | monthH (m : String)
  | group (names : List String)
deriving DecidableEq, Repr

/-- The grouping loop of `create_index` (lines 225-252) over the parsed
documents `(name, year, month)`, carrying the `year`/`month` state variables
(initially `None`), the open `ul_tag`, and the pieces already appended to
`<main>`; after the loop the final `ul_tag` is appended unconditionally
(line 252). -/
def createIndexLoop :
    List (String × String × String) → Option String → Option String →
      List String → List IdxItem → List IdxItem
  | [], _, _, ul, acc => acc ++ [.group ul]
  | (n, y, m) :: rest, year, month, ul, acc =>
    if some m ≠ month ∨ some y ≠ year then
      let acc1 := if ul.isEmpty then acc else acc ++ [.group ul]
      let acc2 := if some y ≠ year then acc1 ++ [.yearH y] else acc1
      createIndexLoop rest (some y) (some m) [n] (acc2 ++ [.monthH m])
    else
      createIndexLoop rest year month (ul ++ [n]) acc

/-- The `strptime` calls of the loop, in iteration order: the parsed triples,
or `none` when one of them raises. -/
def parseAll : List String → Option (List (String × String × String))
  | [] => some []
  | n :: ns =>
    match parseDatePrefix n, parseAll ns with
    | some (y, m), some rest => some ((n, y, m) :: rest)
    | _, _ => none

/-- Blog.create_index, translated from src/confluenceObjects.py lines
201-257, restricted to the grouping it builds inside `<main>` (the head and
title metadata are independent of the documents).  The blog folder's
documents are iterated in sorted name order (`sorted(....iterdir())`); each
name's ISO-date prefix is parsed and reformatted; a new month or year
flushes the open group and emits headings. -/
def create_index (names : List String) : Option (List IdxItem) :=
  match parseAll (names.insertionSort pyStrLe) with
  | some ps => some (createIndexLoop ps none none [] [])
  | none => none

/-- The year headings of an index, in order. -/
def yearHs (items : List IdxItem) : List String :=
  items.filterMap fun
    | .yearH y => some y
    | _ => none

/-- The month headings of an index, in order. -/
def monthHs (items : List IdxItem) : List String :=
  items.filterMap fun
    | .monthH m => some m
    | _ => none

/-- The link groups of an index, in order. -/
def groupsOf (items : List IdxItem) : List (List String) :=
  items.filterMap fun
    | .group g => some g
    | _ => none

/-- The first four characters of a name, as a string: the year of its
ISO-date prefix. -/
def yearPrefix (n : String) : String := String.mk (n.data.take 4)

/-- Consecutive deduplication with an explicit previous-value state: the
year/month boundary logic of the grouping loop, abstracted. -/
def consDedupOpt {α : Type} [DecidableEq α] : Option α → List α → List α
  | _, [] => []
  | prev, a :: rest =>
    if some a ≠ prev then a :: consDedupOpt (some a) rest
    else consDedupOpt (some a) rest

/-- The year/month state pair of the loop as a single optional key. -/
def combineState : Option String → Option String → Option (String × String)
  | some y, some m => some (y, m)
  | _, _ => none

/-- The pairs of month digit characters `%m` accepts. -/
def monthPairs : List (Char × Char) :=
  [('0', '1'), ('0', '2'), ('0', '3'), ('0', '4'), ('0', '5'), ('0', '6'),
   ('0', '7'), ('0', '8'), ('0', '9'), ('1', '0'), ('1', '1'), ('1', '2')]

/-- The (year string, month name) pair determined by a 7-character date key
`YYYY-MM`. -/
def pairOfKey (k : List Char) : String × String :=
  (String.mk (k.take 4), monthName2 (k.getD 5 ' ') (k.getD 6 ' '))

/-- A date key as the parser accepts it: seven characters `YYYY-MM` with an
in-range month. -/
def validKey : List Char → Bool
  | [_, _, _, _, e, f, g] => e = '-' && monthName2 f g ≠ ""
  | _ => false

/-! ### String cancellation helpers -/

/-- Characters of a concatenation. -/
theorem data_append (s t : String) : (s ++ t).data = s.data ++ t.data := by
  cases s; cases t; rfl

/-- Strings with the same characters are equal. -/
theorem str_ext {s t : String} (h : s.data = t.data) : s = t := by
  cases s; cases t; exact congrArg String.mk h

/-- Appending a fixed string on the left is injective. -/
theorem append_cancel_left_str {a b c : String} (h : a ++ b = a ++ c) : b = c := by
  have h2 := congrArg String.data h
  rw [data_append, data_append] at h2
  exact str_ext (List.append_cancel_left h2)

/-- Appending a fixed string on the right is injective. -/
theorem append_cancel_right_str {a b c : String} (h : a ++ c = b ++ c) : a = b := by
  have h2 := congrArg String.data h
  rw [data_append, data_append] at h2
  exact str_ext (List.append_cancel_right h2)

/-- Joining distinct names onto the same folder gives distinct paths. -/
theorem pathJoin_right_inj {folder a b : String}
    (h : pathJoin folder a = pathJoin folder b) : a = b := by
  unfold pathJoin at h
  split at h
  · exact h
  · exact append_cancel_left_str h

example :
    format_attachment_filename id "/download/attachments/123/pic.png?version=2"
      = some "download/attachments/123/pic_version2.png" := rfl

example :
    format_attachment_filename id "/download/attachments/123/pic.png" = none := rfl

example : slugify id "-Hello  world!" = "Hello_world" := rfl

/-! ### Claim C5 -/

/-- C5: `_slugify` is deterministic (two evaluations on the same title yield the
same output) and `_format_attachment_filename` is deterministic on the same URL,
while any two attachment URLs that agree on their folder and base name but whose
query strings carry different version parameter values are mapped to two
distinct local paths. -/
theorem slugify_det_and_attachment_paths_collision_free
    (nfkc : String → String) :
    (∀ title : String, slugify nfkc title = slugify nfkc title) ∧
    (∀ url : String,
      format_attachment_filename nfkc url = format_attachment_filename nfkc url) ∧
    (∀ u1 u2 n d1 d2 v1 v2 : String,
      pathParent (pyLstrip ['/'] u1) = pathParent (pyLstrip ['/'] u2) →
      pySplit '?' (pathName u1) = [n, d1] →
      pySplit '?' (pathName u2) = [n, d2] →
      pyFindVersion d1 = some v1 →
      pyFindVersion d2 = some v2 →
      v1 ≠ v2 →
      format_attachment_filename nfkc u1 ≠ format_attachment_filename nfkc u2) := by
  refine ⟨fun _ => rfl, fun _ => rfl, ?_⟩
  intro u1 u2 n d1 d2 v1 v2 hfold hs1 hs2 hv1 hv2 hne
  simp only [format_attachment_filename, hs1, hs2, hv1, hv2]
  intro hcontra
  rw [hfold] at hcontra
  have hjoin := pathJoin_right_inj (Option.some.inj hcontra)
  have h3 := congrArg String.data hjoin
  simp [data_append] at h3
  exact hne (str_ext h3)

/-- Witness for C5 at concrete inputs: two URLs identical except for the
version value map to different local paths. -/
theorem slugify_det_and_attachment_paths_collision_free_witness :
    format_attachment_filename id "/download/attachments/99/photo.png?version=4" ≠
      format_attachment_filename id "/download/attachments/99/photo.png?version=5" :=
  (slugify_det_and_attachment_paths_collision_free id).2.2
    "/download/attachments/99/photo.png?version=4"
    "/download/attachments/99/photo.png?version=5"
    "photo.png" "version=4" "version=5" "4" "5" rfl rfl rfl rfl rfl (by decide)

/-! ### Claim C6 -/

/-- C6: `_format_attachment_filename` fails (the code raises, the failure the
spec names `MalformedAttachmentURL`) for every URL whose query string carries no
extractable version parameter, and for every URL that has one (with the final
component well-formed, splitting into name and query around a single `?`) the
result is the folder joined with `slug(base name) ++ "_version" ++ version ++
extensions`. -/
theorem attachment_filename_contract (nfkc : String → String) (url : String) :
    (hasVersionParam url = false → format_attachment_filename nfkc url = none) ∧
    (∀ name details version : String,
      pySplit '?' (pathName url) = [name, details] →
      pyFindVersion details = some version →
      format_attachment_filename nfkc url =
        some (pathJoin (pathParent (pyLstrip ['/'] url))
          (slugify nfkc (pyStem name) ++ ("_version" ++ version) ++
            String.join (pySuffixes name)))) := by
  constructor
  · intro h
    unfold format_attachment_filename
    split
    · next name details heq =>
      cases hv : pyFindVersion details with
      | none => rfl
      | some v =>
        exfalso
        have hq : queryStringOf url = some details := by
          simp [queryStringOf, heq, joinWithChar]
        have htrue : hasVersionParam url = true := by
          simp [hasVersionParam, hq, hv]
        rw [h] at htrue
        exact Bool.noConfusion htrue
    · rfl
  · intro name details version h1 h2
    simp [format_attachment_filename, h1, h2]

/-- Witness for C6 at concrete inputs: a URL without a version parameter is
rejected, and a URL with one is mapped to the documented path shape. -/
theorem attachment_filename_contract_witness :
    format_attachment_filename id "/download/attachments/55/doc.pdf" = none ∧
    format_attachment_filename id "/download/attachments/55/doc.pdf?version=12" =
      some "download/attachments/55/doc_version12.pdf" :=
  ⟨(attachment_filename_contract id "/download/attachments/55/doc.pdf").1 rfl,
   ((attachment_filename_contract id "/download/attachments/55/doc.pdf?version=12").2
      "doc.pdf" "version=12" "12" rfl rfl).trans rfl⟩

theorem idsOf_nil : idsOf [] = [] := rfl

theorem idsOf_cons (e : ListedEntry) (l : List ListedEntry) :
    idsOf (e :: l) = e.ID :: idsOf l := rfl

theorem idsOf_append (a b : List ListedEntry) :
    idsOf (a ++ b) = idsOf a ++ idsOf b := List.map_append _ _ _

/-- Membership in the deduplicated IDs: an ID survives iff it occurs in the
input and was not already seen. -/
theorem mem_idsOf_dropDupIDAux (i : String) :
    ∀ (seen : List String) (l : List ListedEntry),
      i ∈ idsOf (dropDupIDAux seen l) ↔ i ∈ idsOf l ∧ i ∉ seen
  | seen, [] => by simp [dropDupIDAux, idsOf]
  | seen, e :: es => by
    by_cases h : e.ID ∈ seen
    · rw [dropDupIDAux, if_pos h, mem_idsOf_dropDupIDAux i seen es, idsOf_cons]
      constructor
      · rintro ⟨h1, h2⟩; exact ⟨List.mem_cons_of_mem _ h1, h2⟩
      · rintro ⟨h1, h2⟩
        rcases List.mem_cons.1 h1 with rfl | h1
        · exact absurd h h2
        · exact ⟨h1, h2⟩
    · rw [dropDupIDAux, if_neg h, idsOf_cons, idsOf_cons]
      constructor
      · intro h1
        rcases List.mem_cons.1 h1 with rfl | h1
        · exact ⟨List.mem_cons_self _ _, h⟩
        · rw [mem_idsOf_dropDupIDAux i _ es] at h1
          exact ⟨List.mem_cons_of_mem _ h1.1,
            fun hc => h1.2 (List.mem_cons_of_mem _ hc)⟩
      · rintro ⟨h1, h2⟩
        rcases List.mem_cons.1 h1 with rfl | h1
        · exact List.mem_cons_self _ _
        · by_cases hie : i = e.ID
          · subst hie; exact List.mem_cons_self _ _
          · refine List.mem_cons_of_mem _ ?_
            rw [mem_idsOf_dropDupIDAux i _ es]
            refine ⟨h1, fun hc => ?_⟩
            rcases List.mem_cons.1 hc with hc | hc
            · exact hie hc
            · exact h2 hc

/-- The deduplicated ID column has no duplicates. -/
theorem nodup_idsOf_dropDupIDAux :
    ∀ (seen : List String) (l : List ListedEntry),
      (idsOf (dropDupIDAux seen l)).Nodup
  | seen, [] => by simp [dropDupIDAux, idsOf]
  | seen, e :: es => by
    by_cases h : e.ID ∈ seen
    · rw [dropDupIDAux, if_pos h]
      exact nodup_idsOf_dropDupIDAux seen es
    · rw [dropDupIDAux, if_neg h, idsOf_cons]
      refine List.nodup_cons.2 ⟨fun hmem => ?_, nodup_idsOf_dropDupIDAux _ es⟩
      rw [mem_idsOf_dropDupIDAux] at hmem
      exact hmem.2 (List.mem_cons_self _ _)

/-- An ID is in the merged table iff it is in either input. -/
theorem mem_idsOf_mergeLists {i : String} {A B : List ListedEntry} :
    i ∈ idsOf (mergeLists A B) ↔ i ∈ idsOf A ∨ i ∈ idsOf B := by
  unfold mergeLists dropDupID
  rw [mem_idsOf_dropDupIDAux, idsOf_append]
  simp

/-! ### Claim C3 -/

/-- C3: `export_list` with merge requested and an existing index file writes the
concatenation of the new buffer and the old file with duplicate IDs dropped;
each ID occurs exactly once in the written index, an ID is present iff it came
from the buffer or the old file, and the merge is commutative and associative up
to set equality on IDs. -/
theorem export_list_merge_dedup :
    (∀ (posts old : List ListedEntry) (p : ListedEntry) (ps : List ListedEntry),
      posts = p :: ps →
      export_list posts (some old) true =
        some ("list_" ++ p.type ++ "s.csv", mergeLists posts old)) ∧
    (∀ posts old : List ListedEntry, (idsOf (mergeLists posts old)).Nodup) ∧
    (∀ (posts old : List ListedEntry) (i : String),
      i ∈ idsOf (mergeLists posts old) ↔ i ∈ idsOf posts ∨ i ∈ idsOf old) ∧
    (∀ (A B : List ListedEntry) (i : String),
      i ∈ idsOf (mergeLists A B) ↔ i ∈ idsOf (mergeLists B A)) ∧
    (∀ (A B C : List ListedEntry) (i : String),
      i ∈ idsOf (mergeLists A (mergeLists B C)) ↔
        i ∈ idsOf (mergeLists (mergeLists A B) C)) := by
  refine ⟨?_, ?_, ?_, ?_, ?_⟩
  · rintro posts old p ps rfl; rfl
  · intro posts old; exact nodup_idsOf_dropDupIDAux [] _
  · intro posts old i; exact mem_idsOf_mergeLists
  · intro A B i; rw [mem_idsOf_mergeLists, mem_idsOf_mergeLists]; tauto
  · intro A B C i
    rw [mem_idsOf_mergeLists, mem_idsOf_mergeLists, mem_idsOf_mergeLists,
      mem_idsOf_mergeLists]
    tauto

/-- Witness for C3 at a concrete buffer and file: the duplicated ID `1` is
written once, keeping the first (new) row. -/
theorem export_list_merge_dedup_witness :
    export_list [⟨"1", "blogpost", "a"⟩, ⟨"1", "blogpost", "b"⟩]
        (some [⟨"2", "blogpost", "c"⟩, ⟨"1", "blogpost", "d"⟩]) true =
      some ("list_blogposts.csv",
        [⟨"1", "blogpost", "a"⟩, ⟨"2", "blogpost", "c"⟩]) :=
  (export_list_merge_dedup.1
    [⟨"1", "blogpost", "a"⟩, ⟨"1", "blogpost", "b"⟩]
    [⟨"2", "blogpost", "c"⟩, ⟨"1", "blogpost", "d"⟩]
    ⟨"1", "blogpost", "a"⟩ [⟨"1", "blogpost", "b"⟩] rfl).trans (by decide)

/-- The buffer a pagination loop run leaves behind is the incoming buffer
followed by the entries this run fetched (which do not depend on the
incoming buffer). -/
theorem scrape_list_loop_append (fetch : Nat → Except TransportError ApiPage)
    (stop : ApiPage → Bool) :
    ∀ (fuel i : Nat) (buf : List ListedEntry),
      scrape_list_loop fetch stop fuel i buf =
        (buf ++ (scrape_list_loop fetch stop fuel i []).1,
         (scrape_list_loop fetch stop fuel i []).2)
  | 0, i, buf => by simp [scrape_list_loop]
  | fuel + 1, i, buf => by
    cases hf : fetch i with
    | error e => simp [scrape_list_loop, hf]
    | ok page =>
      by_cases hb : (!page.hasNext || stop page) = true
      · simp [scrape_list_loop, hf, hb]
      · simp only [scrape_list_loop, hf, if_neg hb, List.nil_append]
        rw [scrape_list_loop_append fetch stop fuel (i + 1) (buf ++ page.results),
          scrape_list_loop_append fetch stop fuel (i + 1) page.results]
        simp

/-! ### Claim C4 -/

/-- C4: the export sits in a `finally:` block, so whether the pagination loop
completes normally or a fetch raises, `export_list` is invoked on the
accumulated buffer: the export component of `scrape_list` is always
`export_list` of the final buffer; moreover when the `k`-th fetch raises after
`k` successfully appended pages, the buffer handed to the export is exactly the
initial buffer followed by the results of pages `0..k-1` and the loop outcome
records the propagated error. -/
theorem scrape_list_flushes_on_error
    (fetch : Nat → Except TransportError ApiPage) (stop : ApiPage → Bool)
    (fuel : Nat) (posts0 : List ListedEntry)
    (existing : Option (List ListedEntry)) (merge : Bool) :
    ((scrape_list fetch stop fuel posts0 existing merge).2.2 =
      export_list (scrape_list fetch stop fuel posts0 existing merge).1
        existing merge) ∧
    (∀ (pages : Nat → ApiPage) (k : Nat) (e : TransportError),
      k < fuel →
      (∀ j, j < k → fetch j = .ok (pages j) ∧ (pages j).hasNext = true ∧
        stop (pages j) = false) →
      fetch k = .error e →
      (scrape_list fetch stop fuel posts0 existing merge).1 =
        posts0 ++ ((List.range k).map fun j => (pages j).results).flatten ∧
      (scrape_list fetch stop fuel posts0 existing merge).2.1 = .raised e) := by
  constructor
  · rfl
  · intro pages k e hk hok herr
    have main : ∀ (k fuel i : Nat) (buf : List ListedEntry),
        k < fuel →
        (∀ j, j < k → fetch (i + j) = .ok (pages (i + j)) ∧
          (pages (i + j)).hasNext = true ∧ stop (pages (i + j)) = false) →
        fetch (i + k) = .error e →
        scrape_list_loop fetch stop fuel i buf =
          (buf ++ ((List.range k).map fun j => (pages (i + j)).results).flatten,
           .raised e) := by
      intro k
      induction k with
      | zero =>
        intro fuel i buf hfuel _ herr2
        match fuel, hfuel with
        | fuel + 1, _ =>
          rw [Nat.add_zero] at herr2
          simp [scrape_list_loop, herr2]
      | succ k ih =>
        intro fuel i buf hfuel hok2 herr2
        match fuel, hfuel with
        | fuel + 1, hfuel =>
          obtain ⟨hf0, hn0, hs0⟩ := hok2 0 (Nat.succ_pos k)
          rw [Nat.add_zero] at hf0 hn0 hs0
          have hcond : (!(pages i).hasNext || stop (pages i)) = false := by
            rw [hn0, hs0]; rfl
          simp only [scrape_list_loop, hf0, hcond, Bool.false_eq_true, if_false]
          have ihres := ih fuel (i + 1) (buf ++ (pages i).results)
            (Nat.lt_of_succ_lt_succ hfuel)
            (fun j hj => by
              have := hok2 (j + 1) (Nat.succ_lt_succ hj)
              rwa [show i + (j + 1) = i + 1 + j by omega] at this)
            (by rwa [show i + (k + 1) = i + 1 + k by omega] at herr2)
          rw [ihres]
          have harg : (fun j => (pages (i + 1 + j)).results)
              = ((fun j => (pages (i + j)).results) ∘ Nat.succ) := by
            funext j
            simp only [Function.comp_apply]
            rw [show i + 1 + j = i + Nat.succ j from by omega]
          rw [List.range_succ_eq_map]
          simp only [List.map_cons, List.map_map, List.flatten_cons]
          rw [List.append_assoc, harg]
          simp
    have := main k fuel 0 posts0 hk
      (fun j hj => by simpa using hok j hj)
      (by simpa using herr)
    unfold scrape_list
    rw [this]
    simp

/-- Witness for C4: the second fetch fails with status 500, and the export of
the `finally:` block still receives the page-one entries. -/
theorem scrape_list_flushes_on_error_witness :
    (scrape_list
        (fun i => if i = 0 then
          .ok ⟨[⟨"7", "blogpost", "t"⟩], true, 0, 1, 1⟩ else .error ⟨500⟩)
        (fun _ => false) 3 [] none true).1 = [⟨"7", "blogpost", "t"⟩] ∧
    (scrape_list
        (fun i => if i = 0 then
          .ok ⟨[⟨"7", "blogpost", "t"⟩], true, 0, 1, 1⟩ else .error ⟨500⟩)
        (fun _ => false) 3 [] none true).2.1 = .raised ⟨500⟩ := by
  have h := (scrape_list_flushes_on_error
      (fun i => if i = 0 then
        .ok ⟨[⟨"7", "blogpost", "t"⟩], true, 0, 1, 1⟩ else .error ⟨500⟩)
      (fun _ => false) 3 [] none true).2
    (fun _ => ⟨[⟨"7", "blogpost", "t"⟩], true, 0, 1, 1⟩) 1 ⟨500⟩
    (by decide)
    (fun j hj => by
      have hj0 : j = 0 := Nat.lt_one_iff.1 hj
      subst hj0
      exact ⟨rfl, rfl, rfl⟩)
    rfl
  exact ⟨h.1.trans (by decide), h.2⟩

/-- C10: `Server.posts` is class-level state shared by every instance and never
cleared, so the `k`-th export of any sequence of `scrape_list` calls receives
the initial buffer plus the batches of all calls up to and including the
`k`-th — not just the current listing operation; and `export_list` derives the
csv filename from the type field of the first buffered entry. -/
theorem shared_posts_buffer_accumulates :
    (∀ (calls : List ListCall) (posts0 : List ListedEntry) (k : Nat)
        (c : ListCall),
      calls.get? k = some c →
      (run_scrape_lists calls posts0).1.get? k =
        some (posts0 ++ ((calls.take (k + 1)).map callBatch).flatten,
          export_list (posts0 ++ ((calls.take (k + 1)).map callBatch).flatten)
            c.existing c.merge)) ∧
    (∀ (e : ListedEntry) (es : List ListedEntry)
        (existing : Option (List ListedEntry)) (merge : Bool),
      export_list (e :: es) existing merge =
        some ("list_" ++ e.type ++ "s.csv",
          match merge, existing with
          | true, some old => mergeLists (e :: es) old
          | _, _ => e :: es)) := by
  constructor
  · intro calls
    induction calls with
    | nil => intro posts0 k c h; simp [List.get?] at h
    | cons c0 cs ih =>
      intro posts0 k c h
      cases k with
      | zero =>
        rw [List.get?_cons_zero, Option.some.injEq] at h
        subst h
        simp only [run_scrape_lists,
          scrape_list_loop_append c0.fetch c0.stop c0.fuel 0 posts0,
          List.get?_cons_zero, List.take_succ_cons, List.take_zero,
          List.map_cons, List.map_nil, List.flatten_cons, List.flatten_nil,
          List.append_nil]
        rfl
      | succ k =>
        rw [List.get?_cons_succ] at h
        simp only [run_scrape_lists,
          scrape_list_loop_append c0.fetch c0.stop c0.fuel 0 posts0,
          List.get?_cons_succ]
        rw [ih (posts0 ++ (scrape_list_loop c0.fetch c0.stop c0.fuel 0 []).1)
          k c h]
        simp only [List.take_succ_cons, List.map_cons, List.flatten_cons,
          ← List.append_assoc, callBatch]
  · intro e es existing merge
    rfl

/-- Witness for C10: after two listing calls, the second export receives both
calls' entries, not only the second's, under the filename derived from the
first entry ever buffered. -/
theorem shared_posts_buffer_accumulates_witness :
    (run_scrape_lists
        [⟨fun _ => .ok ⟨[⟨"1", "blogpost", "a"⟩], false, 0, 1, 25⟩,
            fun _ => false, 1, none, true⟩,
         ⟨fun _ => .ok ⟨[⟨"2", "blogpost", "b"⟩], false, 0, 1, 25⟩,
            fun _ => false, 1, none, true⟩] []).1.get? 1 =
      some ([⟨"1", "blogpost", "a"⟩, ⟨"2", "blogpost", "b"⟩],
        some ("list_blogposts.csv",
          [⟨"1", "blogpost", "a"⟩, ⟨"2", "blogpost", "b"⟩])) := by
  have h := shared_posts_buffer_accumulates.1
    [⟨fun _ => .ok ⟨[⟨"1", "blogpost", "a"⟩], false, 0, 1, 25⟩,
        fun _ => false, 1, none, true⟩,
     ⟨fun _ => .ok ⟨[⟨"2", "blogpost", "b"⟩], false, 0, 1, 25⟩,
        fun _ => false, 1, none, true⟩] [] 1
    ⟨fun _ => .ok ⟨[⟨"2", "blogpost", "b"⟩], false, 0, 1, 25⟩,
        fun _ => false, 1, none, true⟩ rfl
  exact h.trans (by decide)

/-- Counterexample to C1 as stated: with listed ids `["1", "2", "3"]` and a
TransportError raised while fetching the comments of id `"2"`, id `"3"` is not
scraped — the error aborts the rest of the batch (and `create_index` is never
reached), so the remaining ids are not all fully scraped and exported. -/
theorem scrape_posts_transport_aborts_batch_cex :
    scrape_posts commentFail2World ["1", "2", "3"] [] =
      (["1"], some (.transport ⟨500⟩), false) ∧
    "3" ∉ (scrape_posts commentFail2World ["1", "2", "3"] []).1 := by
  exact ⟨rfl, by decide⟩

/-- C1 amended: only the identifier-parse step of `Blog.scrape_posts` is
guarded per item; an exception raised while scraping one id — such as a
TransportError fetching its comments — propagates out of `scrape_posts`: the
ids before it are scraped and exported, every id after it is skipped, and
`create_index` is not reached. -/
theorem scrape_posts_error_propagation (w : PostWorld) (pre : List String)
    (id : String) (rest : List String) (e : TransportError)
    (hpre : ∀ i ∈ pre, isIntLike i = true ∧ scrape_post w i = .ok ())
    (hid : isIntLike id = true) (herr : scrape_post w id = .error e) :
    scrape_posts w (pre ++ id :: rest) [] = (pre, some (.transport e), false) := by
  have aux : ∀ (pre' scraped : List String),
      (∀ i ∈ pre', isIntLike i = true ∧ scrape_post w i = .ok ()) →
      scrape_posts w (pre' ++ id :: rest) scraped =
        (scraped ++ pre', some (.transport e), false) := by
    intro pre'
    induction pre' with
    | nil =>
      intro scraped _
      simp only [List.nil_append, List.append_nil, scrape_posts, hid,
        if_true, herr]
    | cons p ps ih =>
      intro scraped hps
      obtain ⟨hp1, hp2⟩ := hps p (List.mem_cons_self _ _)
      simp only [List.cons_append, scrape_posts, hp1, if_true, hp2,
        List.append_eq]
      rw [ih (scraped ++ [p]) (fun i hi => hps i (List.mem_cons_of_mem _ hi))]
      simp
  simpa using aux pre [] hpre

/-- Witness for the amended C1 at concrete inputs: ids `["4", "5", "6"]` with
the comment fetch of `"5"` failing leave exactly `["4"]` scraped. -/
theorem scrape_posts_error_propagation_witness :
    scrape_posts
        ⟨fun _ => .ok (), fun _ => .ok (),
         fun i => if i = "5" then .error ⟨503⟩ else .ok ()⟩
        (["4"] ++ "5" :: ["6"]) [] = (["4"], some (.transport ⟨503⟩), false) :=
  scrape_posts_error_propagation
    ⟨fun _ => .ok (), fun _ => .ok (),
     fun i => if i = "5" then .error ⟨503⟩ else .ok ()⟩
    ["4"] "5" ["6"] ⟨503⟩
    (fun i hi => by
      have : i = "4" := by simpa using hi
      subst this
      exact ⟨rfl, rfl⟩)
    rfl rfl

/-- C7 at its failing input: for the listed ids `["abc", "123"]` the invalid id
`"abc"` is not skipped with a warning — the `except:` arm's `self.blog._warn`
raises `AttributeError` (a `Blog` has no attribute `blog`), aborting the batch
before the valid id `"123"` is scraped and before `create_index` runs. -/
theorem scrape_posts_invalid_id_raises :
    scrape_posts allOkPostWorld ["abc", "123"] [] =
      ([], some .attributeError, false) := rfl

/-- The depth stored by `comment_scrape` is the depth it was given. -/
theorem comment_scrape_depth (d : Nat) (t : RemoteTree) :
    (comment_scrape d t).depth = d := by
  cases t; rfl

mutual
/-- Every comment built by `comment_scrape` satisfies the depth invariant. -/
theorem comment_scrape_consistent :
    ∀ (d : Nat) (t : RemoteTree), DepthConsistent (comment_scrape d t)
  | d, .node _i ch =>
    .mk _ (fun c hc => (comments_scrape_facts (d + 1) ch c hc).1)
      (fun c hc => (comments_scrape_facts (d + 1) ch c hc).2)

/-- Every comment in a batch built by `comments_scrape` has the depth the
batch was built with and satisfies the depth invariant. -/
theorem comments_scrape_facts :
    ∀ (d : Nat) (ts : List RemoteTree) (c : CommentNode),
      c ∈ comments_scrape d ts → c.depth = d ∧ DepthConsistent c
  | _, [], _, hc => absurd hc (by simp [comments_scrape])
  | d, t :: ts, c, hc => by
    rcases List.mem_cons.1 hc with rfl | hc'
    · exact ⟨comment_scrape_depth d t, comment_scrape_consistent d t⟩
    · exact comments_scrape_facts d ts c hc'
end

/-! ### Claim C2 -/

/-- C2: every root-level comment fetched directly under a `BlogPost` has
depth 0, and — recursively — every comment's children, fetched under it, carry
its depth plus one. -/
theorem comment_depth_invariant (ts : List RemoteTree) :
    ∀ c ∈ blogpost_scrape_comments ts, c.depth = 0 ∧ DepthConsistent c :=
  fun c hc => comments_scrape_facts 0 ts c hc

/-- Witness for C2 on a concrete two-level comment tree. -/
theorem comment_depth_invariant_witness :
    (⟨"10", 0, [⟨"11", 1, []⟩]⟩ : CommentNode) ∈
      blogpost_scrape_comments [.node "10" [.node "11" []]] ∧
    ((⟨"10", 0, [⟨"11", 1, []⟩]⟩ : CommentNode).depth = 0 ∧
      DepthConsistent ⟨"10", 0, [⟨"11", 1, []⟩]⟩) :=
  ⟨List.mem_singleton_self _,
   comment_depth_invariant [.node "10" [.node "11" []]] _
     (List.mem_singleton_self _)⟩

/-! ### Claim C9 -/

/-- C9: every `img` element whose `data-image-src` attribute matches the remote
attachment-download pattern (and whose URL the codec accepts) is replaced in
place by a link whose target is the codec-derived full-asset local path,
wrapping an image whose source is the corresponding thumbnail local path
(the same path with `/attachments/` replaced by `/thumbnails/`); non-matching
elements keep their tag and attributes with children rewritten in place, and
text nodes are untouched. -/
theorem img_rewriting (nfkc : String → String) :
    (∀ (attrs : List (String × String)) (children : List Dom) (u p : String),
      attrLookup "data-image-src" attrs = some u →
      charsContainsSub "/download/attachments/".data u.data = true →
      format_attachment_filename nfkc u = some p →
      rewriteImgs nfkc (.elem "img" attrs children) =
        .ok (.elem "a" [("href", pathJoin ".." p)]
          [.elem "img"
            [("src", pyReplace "/attachments/" "/thumbnails/" (pathJoin ".." p))]
            []])) ∧
    (∀ (tag : String) (attrs : List (String × String)) (children : List Dom),
      matchesAttachmentImg tag attrs = false →
      rewriteImgs nfkc (.elem tag attrs children) =
        (rewriteImgsList nfkc children).map (fun cs => .elem tag attrs cs)) ∧
    (∀ s, rewriteImgs nfkc (.text s) = .ok (.text s)) := by
  refine ⟨?_, ?_, fun s => rfl⟩
  · intro attrs children u p hattr hmatch hfmt
    have hm : matchesAttachmentImg "img" attrs = true := by
      simp [matchesAttachmentImg, hattr, hmatch]
    simp [rewriteImgs, hm, hattr, hfmt]
  · intro tag attrs children h
    simp only [rewriteImgs, h, Bool.false_eq_true, if_false]
    cases rewriteImgsList nfkc children <;> rfl

/-- Witness for C9 at a concrete document: the versioned image of the spec's
example is rewritten to a thumbnail link pair. -/
theorem img_rewriting_witness :
    rewriteImgs id
        (.elem "img"
          [("data-image-src", "/download/attachments/123/pic.png?version=2")]
          []) =
      .ok (.elem "a"
        [("href", "../download/attachments/123/pic_version2.png")]
        [.elem "img"
          [("src", "../download/thumbnails/123/pic_version2.png")] []]) :=
  ((img_rewriting id).1
    [("data-image-src", "/download/attachments/123/pic.png?version=2")] []
    "/download/attachments/123/pic.png?version=2"
    "download/attachments/123/pic_version2.png" rfl rfl rfl).trans rfl

/-- Head step of `charsLe` on equal heads. -/
theorem charsLe_cons_self (c : Char) (cs ds : List Char) :
    charsLe (c :: cs) (c :: ds) = charsLe cs ds := by simp [charsLe]

/-- Head step of `charsLe` on distinct heads. -/
theorem charsLe_cons_ne {c d : Char} (h : c ≠ d) (cs ds : List Char) :
    charsLe (c :: cs) (d :: ds) = decide (c < d) := by simp [charsLe, h]

/-- `charsLe` is total. -/
theorem charsLe_total : ∀ a b : List Char, charsLe a b = true ∨ charsLe b a = true
  | [], _ => Or.inl rfl
  | _ :: _, [] => Or.inr rfl
  | c :: cs, d :: ds => by
    rcases lt_trichotomy c d with h | h | h
    · exact Or.inl (by rw [charsLe_cons_ne (ne_of_lt h)]; exact decide_eq_true h)
    · subst h
      rcases charsLe_total cs ds with h1 | h1
      · exact Or.inl (by rwa [charsLe_cons_self])
      · exact Or.inr (by rwa [charsLe_cons_self])
    · exact Or.inr (by rw [charsLe_cons_ne (ne_of_lt h)]; exact decide_eq_true h)

/-- `charsLe` is transitive. -/
theorem charsLe_trans : ∀ a b c : List Char,
    charsLe a b = true → charsLe b c = true → charsLe a c = true
  | [], _, _, _, _ => rfl
  | _ :: _, [], _, h1, _ => absurd h1 (by simp [charsLe])
  | _ :: _, _ :: _, [], _, h2 => absurd h2 (by simp [charsLe])
  | a :: as, b :: bs, c :: cs, h1, h2 => by
    by_cases hab : a = b
    · subst hab
      rw [charsLe_cons_self] at h1
      by_cases hac : a = c
      · subst hac
        rw [charsLe_cons_self] at h2 ⊢
        exact charsLe_trans as bs cs h1 h2
      · rw [charsLe_cons_ne hac] at h2 ⊢
        exact h2
    · have hlt : a < b := of_decide_eq_true (by rwa [charsLe_cons_ne hab] at h1)
      by_cases hbc : b = c
      · subst hbc
        rw [charsLe_cons_ne hab] at h1 ⊢
        exact h1
      · have hlt2 : b < c :=
          of_decide_eq_true (by rwa [charsLe_cons_ne hbc] at h2)
        have hac : a < c := lt_trans hlt hlt2
        rw [charsLe_cons_ne (ne_of_lt hac)]
        exact decide_eq_true hac

/-- `charsLe` is antisymmetric. -/
theorem charsLe_antisymm : ∀ a b : List Char,
    charsLe a b = true → charsLe b a = true → a = b
  | [], [], _, _ => rfl
  | [], _ :: _, _, h2 => absurd h2 (by simp [charsLe])
  | _ :: _, [], h1, _ => absurd h1 (by simp [charsLe])
  | a :: as, b :: bs, h1, h2 => by
    by_cases hab : a = b
    · subst hab
      rw [charsLe_cons_self] at h1 h2
      rw [charsLe_antisymm as bs h1 h2]
    · have hlt : a < b := of_decide_eq_true (by rwa [charsLe_cons_ne hab] at h1)
      have hlt2 : b < a :=
        of_decide_eq_true (by rwa [charsLe_cons_ne (Ne.symm hab)] at h2)
      exact absurd (lt_trans hlt hlt2) (lt_irrefl a)

instance : IsTotal String pyStrLe := ⟨fun a b => charsLe_total a.data b.data⟩

instance : IsTrans String pyStrLe :=
  ⟨fun a b c h1 h2 => charsLe_trans a.data b.data c.data h1 h2⟩

/-- Comparing length-`n` prefixes is monotone for `charsLe`. -/
theorem charsLe_take (n : Nat) : ∀ a b : List Char,
    charsLe a b = true → charsLe (a.take n) (b.take n) = true := by
  induction n with
  | zero => intro a b _; rfl
  | succ n ihn =>
    intro a b h
    match a, b with
    | [], _ => rfl
    | _ :: _, [] => exact absurd h (by simp [charsLe])
    | a :: as, b :: bs =>
      by_cases hab : a = b
      · subst hab
        rw [charsLe_cons_self] at h
        show charsLe (a :: as.take n) (a :: bs.take n) = true
        rw [charsLe_cons_self]
        exact ihn as bs h
      · rw [charsLe_cons_ne hab] at h
        show charsLe (a :: as.take n) (b :: bs.take n) = true
        rw [charsLe_cons_ne hab]
        exact h

example :
    create_index ["2021-03-15_b.html", "2021-03-01_a.html", "2022-01-02_c.html"] =
      some [.yearH "2021", .monthH "March",
        .group ["2021-03-01_a.html", "2021-03-15_b.html"],
        .yearH "2022", .monthH "January", .group ["2022-01-02_c.html"]] := by
  decide

/-- The loop's boundary test matches inequality against the combined state. -/
theorem combineState_ne (year month : Option String) (y m : String) :
    (some (y, m) ≠ combineState year month) ↔ (some m ≠ month ∨ some y ≠ year) := by
  cases year with
  | none => simp [combineState]
  | some y' =>
    cases month with
    | none => simp [combineState]
    | some m' =>
      simp only [combineState, ne_eq, Option.some.injEq, Prod.mk.injEq,
        not_and_or]
      tauto

theorem yearHs_append (a b : List IdxItem) :
    yearHs (a ++ b) = yearHs a ++ yearHs b := List.filterMap_append _ _ _

theorem monthHs_append (a b : List IdxItem) :
    monthHs (a ++ b) = monthHs a ++ monthHs b := List.filterMap_append _ _ _

theorem groupsOf_append (a b : List IdxItem) :
    groupsOf (a ++ b) = groupsOf a ++ groupsOf b := List.filterMap_append _ _ _

theorem yearHs_nil : yearHs [] = [] := rfl

theorem yearHs_yearH (y : String) (l : List IdxItem) :
    yearHs (.yearH y :: l) = y :: yearHs l := rfl

theorem yearHs_monthH (m : String) (l : List IdxItem) :
    yearHs (.monthH m :: l) = yearHs l := rfl

theorem yearHs_group (g : List String) (l : List IdxItem) :
    yearHs (.group g :: l) = yearHs l := rfl

theorem monthHs_nil : monthHs [] = [] := rfl

theorem monthHs_yearH (y : String) (l : List IdxItem) :
    monthHs (.yearH y :: l) = monthHs l := rfl

theorem monthHs_monthH (m : String) (l : List IdxItem) :
    monthHs (.monthH m :: l) = m :: monthHs l := rfl

theorem monthHs_group (g : List String) (l : List IdxItem) :
    monthHs (.group g :: l) = monthHs l := rfl

theorem groupsOf_nil : groupsOf [] = [] := rfl

theorem groupsOf_yearH (y : String) (l : List IdxItem) :
    groupsOf (.yearH y :: l) = groupsOf l := rfl

theorem groupsOf_monthH (m : String) (l : List IdxItem) :
    groupsOf (.monthH m :: l) = groupsOf l := rfl

theorem groupsOf_group (g : List String) (l : List IdxItem) :
    groupsOf (.group g :: l) = g :: groupsOf l := rfl

/-- Year headings emitted by the loop: the consecutive deduplication of the
year column, seeded with the incoming year state. -/
theorem yearHs_loop :
    ∀ (ps : List (String × String × String)) (year month : Option String)
      (ul : List String) (acc : List IdxItem),
      yearHs (createIndexLoop ps year month ul acc) =
        yearHs acc ++ consDedupOpt year (ps.map fun t => t.2.1)
  | [], year, month, ul, acc => by
    simp [createIndexLoop, yearHs_append, yearHs_group, yearHs_nil,
      consDedupOpt]
  | (n, y, m) :: rest, year, month, ul, acc => by
    simp only [createIndexLoop, List.map_cons]
    by_cases hb : (some m ≠ month ∨ some y ≠ year)
    · rw [if_pos hb, yearHs_loop rest (some y) (some m) [n] _]
      by_cases hy : some y ≠ year
      · rw [if_pos hy, consDedupOpt, if_pos hy]
        by_cases hul : ul.isEmpty <;>
          simp [hul, yearHs_append, yearHs_yearH, yearHs_monthH, yearHs_group,
            yearHs_nil]
      · rw [if_neg hy, consDedupOpt, if_neg hy]
        by_cases hul : ul.isEmpty <;>
          simp [hul, yearHs_append, yearHs_monthH, yearHs_group, yearHs_nil]
    · rw [if_neg hb, yearHs_loop rest year month (ul ++ [n]) acc]
      push_neg at hb
      rw [consDedupOpt, if_neg (by simp [hb.2]), ← hb.2]

/-- Month headings emitted by the loop: the consecutive deduplication of the
(year, month) column, seeded with the incoming state, projected to months. -/
theorem monthHs_loop :
    ∀ (ps : List (String × String × String)) (year month : Option String)
      (ul : List String) (acc : List IdxItem),
      monthHs (createIndexLoop ps year month ul acc) =
        monthHs acc ++
          (consDedupOpt (combineState year month)
            (ps.map fun t => (t.2.1, t.2.2))).map Prod.snd
  | [], year, month, ul, acc => by
    simp [createIndexLoop, monthHs_append, monthHs_group, monthHs_nil,
      consDedupOpt]
  | (n, y, m) :: rest, year, month, ul, acc => by
    simp only [createIndexLoop, List.map_cons]
    by_cases hb : (some m ≠ month ∨ some y ≠ year)
    · rw [if_pos hb, monthHs_loop rest (some y) (some m) [n] _]
      rw [consDedupOpt, if_pos ((combineState_ne year month y m).2 hb)]
      have hcs : combineState (some y) (some m) = some (y, m) := rfl
      rw [hcs, List.map_cons]
      by_cases hy : some y ≠ year <;> by_cases hul : ul.isEmpty <;>
        simp [hy, hul, monthHs_append, monthHs_yearH, monthHs_monthH,
          monthHs_group, monthHs_nil]
    · rw [if_neg hb, monthHs_loop rest year month (ul ++ [n]) acc]
      push_neg at hb
      have hcomb : combineState year month = some (y, m) := by
        rw [← hb.1, ← hb.2]; rfl
      rw [consDedupOpt, if_neg (by simp [hcomb]), hcomb]

/-- Number of link groups emitted by the loop, when a group is open: one per
emitted month heading, plus the final unconditional flush. -/
theorem groupsOf_loop_length :
    ∀ (ps : List (String × String × String)) (year month : Option String)
      (ul : List String) (acc : List IdxItem), ul ≠ [] →
      (groupsOf (createIndexLoop ps year month ul acc)).length =
        (groupsOf acc).length +
          ((consDedupOpt (combineState year month)
            (ps.map fun t => (t.2.1, t.2.2))).length + 1)
  | [], year, month, ul, acc, _ => by
    simp [createIndexLoop, groupsOf_append, groupsOf_group, groupsOf_nil,
      consDedupOpt]
  | (n, y, m) :: rest, year, month, ul, acc, hul => by
    simp only [createIndexLoop, List.map_cons]
    by_cases hb : (some m ≠ month ∨ some y ≠ year)
    · rw [if_pos hb,
        groupsOf_loop_length rest (some y) (some m) [n] _ (by simp)]
      rw [consDedupOpt, if_pos ((combineState_ne year month y m).2 hb)]
      have hcs : combineState (some y) (some m) = some (y, m) := rfl
      rw [hcs]
      have hul2 : ul.isEmpty = false := by
        cases ul with
        | nil => exact absurd rfl hul
        | cons a l => rfl
      by_cases hy : some y ≠ year <;>
        simp [hy, hul2, groupsOf_append, groupsOf_yearH, groupsOf_monthH,
          groupsOf_group, groupsOf_nil, Nat.add_assoc, Nat.add_comm,
          Nat.add_left_comm]
    · rw [if_neg hb,
        groupsOf_loop_length rest year month (ul ++ [n]) acc (by simp)]
      push_neg at hb
      have hcomb : combineState year month = some (y, m) := by
        rw [← hb.1, ← hb.2]; rfl
      rw [consDedupOpt, if_neg (by simp [hcomb]), hcomb]

/-- The documents listed by the loop's groups, in order: the open group then
the remaining names in iteration order. -/
theorem groupsOf_loop_flatten :
    ∀ (ps : List (String × String × String)) (year month : Option String)
      (ul : List String) (acc : List IdxItem),
      (groupsOf (createIndexLoop ps year month ul acc)).flatten =
        (groupsOf acc).flatten ++ ul ++ ps.map (fun t => t.1)
  | [], year, month, ul, acc => by
    simp [createIndexLoop, groupsOf_append, groupsOf_group, groupsOf_nil]
  | (n, y, m) :: rest, year, month, ul, acc => by
    simp only [createIndexLoop, List.map_cons]
    by_cases hb : (some m ≠ month ∨ some y ≠ year)
    · rw [if_pos hb, groupsOf_loop_flatten rest (some y) (some m) [n] _]
      by_cases hul : ul.isEmpty
      · rw [List.isEmpty_iff.1 hul]
        by_cases hy : some y ≠ year <;>
          simp [hy, groupsOf_append, groupsOf_yearH, groupsOf_monthH,
            groupsOf_group, groupsOf_nil]
      · by_cases hy : some y ≠ year <;>
          simp [hy, hul, groupsOf_append, groupsOf_yearH, groupsOf_monthH,
            groupsOf_group, groupsOf_nil]
    · rw [if_neg hb, groupsOf_loop_flatten rest year month (ul ++ [n]) acc]
      simp

/-- Elements of the deduplicated list come from the input. -/
theorem consDedupOpt_subset {α : Type} [DecidableEq α] :
    ∀ (prev : Option α) (l : List α) (a : α),
      a ∈ consDedupOpt prev l → a ∈ l
  | _, [], a, h => absurd h (by simp [consDedupOpt])
  | prev, b :: rest, a, h => by
    by_cases hb : some b ≠ prev
    · rw [consDedupOpt, if_pos hb] at h
      rcases List.mem_cons.1 h with rfl | h2
      · exact List.mem_cons_self _ _
      · exact List.mem_cons_of_mem _ (consDedupOpt_subset _ rest a h2)
    · rw [consDedupOpt, if_neg hb] at h
      exact List.mem_cons_of_mem _ (consDedupOpt_subset _ rest a h)

/-- An input element survives deduplication unless it equals the seed. -/
theorem mem_consDedupOpt {α : Type} [DecidableEq α] :
    ∀ (prev : Option α) (l : List α) (a : α),
      a ∈ l → a ∈ consDedupOpt prev l ∨ prev = some a
  | prev, b :: rest, a, h => by
    rcases List.mem_cons.1 h with rfl | h2
    · by_cases hb : some a ≠ prev
      · rw [consDedupOpt, if_pos hb]
        exact Or.inl (List.mem_cons_self _ _)
      · push_neg at hb
        exact Or.inr hb.symm
    · rcases mem_consDedupOpt (some b) rest a h2 with h3 | h3
      · left
        by_cases hb : some b ≠ prev
        · rw [consDedupOpt, if_pos hb]
          exact List.mem_cons_of_mem _ h3
        · rw [consDedupOpt, if_neg hb]
          exact h3
      · have hba : b = a := Option.some.inj h3
        subst hba
        by_cases hb : some b ≠ prev
        · rw [consDedupOpt, if_pos hb]
          exact Or.inl (List.mem_cons_self _ _)
        · push_neg at hb
          exact Or.inr hb.symm

/-- The seed does not reappear after deduplicating a sorted list. -/
theorem not_mem_consDedupOpt_seed {α : Type} [DecidableEq α]
    (le : α → α → Prop) (anti : ∀ a b, le a b → le b a → a = b) :
    ∀ (a : α) (l : List α), (a :: l).Pairwise le → a ∉ consDedupOpt (some a) l
  | _, [], _, h => by simp [consDedupOpt] at h
  | a, b :: rest, hp, h => by
    rcases List.pairwise_cons.1 hp with ⟨ha, hp2⟩
    rcases List.pairwise_cons.1 hp2 with ⟨hb, hp3⟩
    by_cases hab : b = a
    · subst hab
      rw [consDedupOpt, if_neg (by simp)] at h
      exact not_mem_consDedupOpt_seed le anti b rest
        (List.pairwise_cons.2
          ⟨fun x hx => ha x (List.mem_cons_of_mem _ hx), hp3⟩) h
    · rw [consDedupOpt, if_pos (by simpa using fun hc : b = a => hab hc)] at h
      rcases List.mem_cons.1 h with rfl | h2
      · exact hab rfl
      · have hmem : a ∈ rest := consDedupOpt_subset _ rest a h2
        exact hab (anti b a (hb a hmem) (ha b (List.mem_cons_self _ _)))

/-- Deduplicating a sorted list yields distinct elements. -/
theorem consDedupOpt_nodup {α : Type} [DecidableEq α]
    (le : α → α → Prop) (anti : ∀ a b, le a b → le b a → a = b) :
    ∀ (prev : Option α) (l : List α), l.Pairwise le →
      (consDedupOpt prev l).Nodup
  | _, [], _ => by simp [consDedupOpt]
  | prev, a :: rest, hp => by
    rcases List.pairwise_cons.1 hp with ⟨_, hp2⟩
    by_cases hb : some a ≠ prev
    · rw [consDedupOpt, if_pos hb]
      exact List.nodup_cons.2
        ⟨not_mem_consDedupOpt_seed le anti a rest hp,
         consDedupOpt_nodup le anti (some a) rest hp2⟩
    · rw [consDedupOpt, if_neg hb]
      exact consDedupOpt_nodup le anti (some a) rest hp2

/-- Deduplication lengths transfer along a function injective on the scope. -/
theorem consDedupOpt_map_length {α β : Type} [DecidableEq α] [DecidableEq β]
    (f : α → β) :
    ∀ (prev : Option α) (l : List α),
      (∀ a b, (prev = some a ∨ a ∈ l) → (prev = some b ∨ b ∈ l) →
        f a = f b → a = b) →
      (consDedupOpt (prev.map f) (l.map f)).length =
        (consDedupOpt prev l).length
  | _, [], _ => by simp [consDedupOpt]
  | prev, a :: rest, hinj => by
    have hiff : (some (f a) ≠ prev.map f) ↔ (some a ≠ prev) := by
      cases prev with
      | none => simp
      | some p =>
        simp only [Option.map_some', ne_eq, Option.some.injEq]
        constructor
        · intro h hc
          exact h (by rw [hc])
        · intro h hc
          exact h (hinj a p (Or.inr (List.mem_cons_self _ _)) (Or.inl rfl) hc)
    have hinj2 : ∀ x y, (some a = some x ∨ x ∈ rest) →
        (some a = some y ∨ y ∈ rest) → f x = f y → x = y := by
      intro x y hx hy hf
      refine hinj x y ?_ ?_ hf
      · rcases hx with hx | hx
        · exact Or.inr (by rw [← Option.some.inj hx]; exact List.mem_cons_self _ _)
        · exact Or.inr (List.mem_cons_of_mem _ hx)
      · rcases hy with hy | hy
        · exact Or.inr (by rw [← Option.some.inj hy]; exact List.mem_cons_self _ _)
        · exact Or.inr (List.mem_cons_of_mem _ hy)
    have hrec := consDedupOpt_map_length f (some a) rest hinj2
    rw [List.map_cons, consDedupOpt, consDedupOpt]
    by_cases hb : some a ≠ prev
    · rw [if_pos (hiff.2 hb), if_pos hb, List.length_cons, List.length_cons]
      exact congrArg Nat.succ hrec
    · rw [if_neg (fun hc => hb (hiff.1 hc)), if_neg hb]
      exact hrec

set_option maxHeartbeats 1000000 in
/-- A nonempty month name comes from one of the twelve digit pairs. -/
theorem monthName2_cases (f g : Char) (h : monthName2 f g ≠ "") :
    (f, g) ∈ monthPairs := by
  unfold monthName2 at h
  split_ifs at h <;> subst_vars <;>
    first
      | decide
      | exact absurd rfl h

/-- Distinct in-range digit pairs give distinct month names. -/
theorem monthName2_inj {f1 g1 f2 g2 : Char} (h1 : monthName2 f1 g1 ≠ "")
    (heq : monthName2 f1 g1 = monthName2 f2 g2) : f1 = f2 ∧ g1 = g2 := by
  have h2 : monthName2 f2 g2 ≠ "" := by rw [← heq]; exact h1
  have hm1 := monthName2_cases f1 g1 h1
  have hm2 := monthName2_cases f2 g2 h2
  have hkey : ∀ p ∈ monthPairs, ∀ q ∈ monthPairs,
      monthName2 p.1 p.2 = monthName2 q.1 q.2 → p = q := by decide
  have hpq := hkey (f1, g1) hm1 (f2, g2) hm2 heq
  exact ⟨congrArg Prod.fst hpq, congrArg Prod.snd hpq⟩

/-- A valid key has the shape `YYYY-MM`. -/
theorem validKey_shape : ∀ k : List Char, validKey k = true →
    ∃ a b c d f g, k = [a, b, c, d, '-', f, g] ∧ monthName2 f g ≠ ""
  | [], h => by simp [validKey] at h
  | [_], h => by simp [validKey] at h
  | [_, _], h => by simp [validKey] at h
  | [_, _, _], h => by simp [validKey] at h
  | [_, _, _, _], h => by simp [validKey] at h
  | [_, _, _, _, _], h => by simp [validKey] at h
  | [_, _, _, _, _, _], h => by simp [validKey] at h
  | [a, b, c, d, e, f, g], h => by
    simp only [validKey, Bool.and_eq_true, decide_eq_true_eq] at h
    exact ⟨a, b, c, d, f, g, by rw [h.1], h.2⟩
  | _ :: _ :: _ :: _ :: _ :: _ :: _ :: _ :: _, h => by simp [validKey] at h

/-- `pairOfKey` is injective on valid keys. -/
theorem pairOfKey_inj {k1 k2 : List Char} (h1 : validKey k1 = true)
    (h2 : validKey k2 = true) (h : pairOfKey k1 = pairOfKey k2) : k1 = k2 := by
  obtain ⟨a1, b1, c1, d1, f1, g1, rfl, hm1⟩ := validKey_shape k1 h1
  obtain ⟨a2, b2, c2, d2, f2, g2, rfl, hm2⟩ := validKey_shape k2 h2
  have e1 : pairOfKey [a1, b1, c1, d1, '-', f1, g1] =
      (String.mk [a1, b1, c1, d1], monthName2 f1 g1) := rfl
  have e2 : pairOfKey [a2, b2, c2, d2, '-', f2, g2] =
      (String.mk [a2, b2, c2, d2], monthName2 f2 g2) := rfl
  rw [e1, e2, Prod.mk.injEq] at h
  have hy := congrArg String.data h.1
  simp only [List.cons.injEq, and_true] at hy
  obtain ⟨rfl, rfl⟩ := monthName2_inj hm1 h.2
  simp_all

/-- What a successful parse says about the name: its 7-character key is valid
and determines the returned year string and month name. -/
theorem parseDatePrefix_spec : ∀ {n y m : String},
    parseDatePrefix n = some (y, m) →
    validKey (n.data.take 7) = true ∧ pairOfKey (n.data.take 7) = (y, m) := by
  intro n y m h
  unfold parseDatePrefix at h
  split at h
  · next y1 y2 y3 y4 s1 m1 m2 s2 d1 d2 heq =>
    have hk : n.data.take 7 = [y1, y2, y3, y4, s1, m1, m2] := by
      have := List.take_take 7 10 n.data
      rw [show min 7 10 = 7 from rfl] at this
      rw [← this, heq]
      rfl
    split at h
    · next hcond =>
      simp only [Bool.and_eq_true, decide_eq_true_eq] at hcond
      have hdash : s1 = '-' := by tauto
      have hmn : monthName2 m1 m2 ≠ "" := by tauto
      rw [Option.some.injEq, Prod.mk.injEq] at h
      obtain ⟨hy, hm⟩ := h
      subst hdash
      constructor
      · rw [hk]
        simp only [validKey, Bool.and_eq_true, decide_eq_true_eq]
        exact ⟨by trivial, hmn⟩
      · rw [hk, ← hy, ← hm]
        rfl
    · exact absurd h (by simp)
  · exact absurd h (by simp)

/-- `parseAll` preserves the names in order, and each triple's year and
(year, month) columns are determined by the name's 7-character key, which the
successful parse certifies valid. -/
theorem parseAll_spec : ∀ (ns : List String)
    (ps : List (String × String × String)), parseAll ns = some ps →
    ps.map (fun t => t.1) = ns ∧
    ps.map (fun t => t.2.1) = ns.map yearPrefix ∧
    ps.map (fun t => (t.2.1, t.2.2)) =
      (ns.map fun n => n.data.take 7).map pairOfKey ∧
    ∀ n ∈ ns, validKey (n.data.take 7) = true
  | [], ps, h => by
    rw [parseAll, Option.some.injEq] at h
    subst h
    simp
  | n :: ns, ps, h => by
    rw [parseAll] at h
    cases hp : parseDatePrefix n with
    | none => rw [hp] at h; exact absurd h (by simp)
    | some ym =>
      cases hq : parseAll ns with
      | none => rw [hp, hq] at h; exact absurd h (by simp)
      | some rest =>
        obtain ⟨y, m⟩ := ym
        rw [hp, hq, Option.some.injEq] at h
        subst h
        obtain ⟨hnames, hyears, hpairs, hvalid⟩ := parseAll_spec ns rest hq
        obtain ⟨hvk, hpk⟩ := parseDatePrefix_spec hp
        have hy : y = yearPrefix n := by
          have h4 : String.mk ((n.data.take 7).take 4) = y :=
            congrArg Prod.fst hpk
          rw [← h4, yearPrefix]
          congr 1
          rw [List.take_take]
          norm_num
        refine ⟨by simp [hnames], ?_, ?_, ?_⟩
        · simp only [List.map_cons, hyears, hy]
        · simp only [List.map_cons, hpairs, hpk.symm]
        · intro x hx
          rcases List.mem_cons.1 hx with rfl | hx
          · exact hvk
          · exact hvalid x hx

set_option maxHeartbeats 2000000 in
/-- C8: `create_index` iterates the documents in sorted filename order and
emits one year heading per distinct year and one month group per distinct
(year, month): the emitted year headings are exactly the distinct year
prefixes of the listed names, without repetition; the number of month headings
equals the number of distinct 7-character year-month prefixes; the link groups
partition the names in sorted filename order; for a nonempty folder there is
exactly one group per month heading; and on the spec's concrete example the
emitted structure is exactly two year groups, 2021 holding one March group
with both March documents in sorted order. -/
theorem create_index_grouping :
    (∀ (names : List String) (items : List IdxItem),
      create_index names = some items →
      (yearHs items).Nodup ∧
      (∀ y, y ∈ yearHs items ↔ y ∈ names.map yearPrefix) ∧
      (monthHs items).length =
        ((names.map fun n => n.data.take 7).dedup).length ∧
      (groupsOf items).flatten = names.insertionSort pyStrLe ∧
      (names ≠ [] → (groupsOf items).length = (monthHs items).length)) ∧
    create_index
        ["2021-03-01_a.html", "2021-03-15_b.html", "2022-01-02_c.html"] =
      some [.yearH "2021", .monthH "March",
        .group ["2021-03-01_a.html", "2021-03-15_b.html"],
        .yearH "2022", .monthH "January", .group ["2022-01-02_c.html"]] := by
  constructor
  · intro names items h
    unfold create_index at h
    cases hps : parseAll (names.insertionSort pyStrLe) with
    | none => rw [hps] at h; exact absurd h (by simp)
    | some ps =>
      rw [hps, Option.some.injEq] at h
      subst h
      obtain ⟨hnames, hyears, hpairs, hvalid⟩ :=
        parseAll_spec (names.insertionSort pyStrLe) ps hps
      have hanti : ∀ a b : String, pyStrLe a b → pyStrLe b a → a = b :=
        fun a b h1 h2 => str_ext (charsLe_antisymm _ _ h1 h2)
      have hsort : (names.insertionSort pyStrLe).Pairwise pyStrLe :=
        List.sorted_insertionSort pyStrLe names
      have hperm : List.Perm (names.insertionSort pyStrLe) names :=
        List.perm_insertionSort pyStrLe names
      have hyitems : yearHs (createIndexLoop ps none none [] []) =
          consDedupOpt none (ps.map fun t => t.2.1) := by
        rw [yearHs_loop ps none none [] []]
        simp [yearHs_nil]
      have hYpair : (ps.map fun t => t.2.1).Pairwise pyStrLe := by
        rw [hyears]
        exact List.Pairwise.map yearPrefix
          (fun a b hab => charsLe_take 4 a.data b.data hab) hsort
      have hmitems : monthHs (createIndexLoop ps none none [] []) =
          (consDedupOpt none (ps.map fun t => (t.2.1, t.2.2))).map Prod.snd := by
        rw [monthHs_loop ps none none [] []]
        simp [monthHs_nil, combineState]
      have hKvalid : ∀ k ∈ (names.insertionSort pyStrLe).map
          (fun n => n.data.take 7), validKey k = true := by
        intro k hk
        rcases List.mem_map.1 hk with ⟨n, hn, rfl⟩
        exact hvalid n hn
      have hKpair : ((names.insertionSort pyStrLe).map
          fun n => n.data.take 7).Pairwise (fun a b => charsLe a b = true) :=
        List.Pairwise.map _
          (fun a b hab => charsLe_take 7 a.data b.data hab) hsort
      have hKmem : ∀ k, k ∈ consDedupOpt none
          ((names.insertionSort pyStrLe).map fun n => n.data.take 7) ↔
          k ∈ (names.insertionSort pyStrLe).map fun n => n.data.take 7 := by
        intro k
        constructor
        · exact consDedupOpt_subset none _ k
        · intro hk
          rcases mem_consDedupOpt none _ k hk with h3 | h3
          · exact h3
          · exact absurd h3 (by simp)
      have hKnodup : (consDedupOpt none ((names.insertionSort pyStrLe).map
          fun n => n.data.take 7)).Nodup :=
        consDedupOpt_nodup _ (fun a b h1 h2 => charsLe_antisymm a b h1 h2)
          none _ hKpair
      have hTrans : (consDedupOpt none
            (((names.insertionSort pyStrLe).map fun n => n.data.take 7).map
              pairOfKey)).length =
          (consDedupOpt none ((names.insertionSort pyStrLe).map
            fun n => n.data.take 7)).length := by
        have hinj : ∀ a b : List Char,
            ((none : Option (List Char)) = some a ∨
              a ∈ (names.insertionSort pyStrLe).map fun n => n.data.take 7) →
            ((none : Option (List Char)) = some b ∨
              b ∈ (names.insertionSort pyStrLe).map fun n => n.data.take 7) →
            pairOfKey a = pairOfKey b → a = b := by
          intro a b ha hb hf
          rcases ha with ha | ha
          · exact absurd ha (by simp)
          · rcases hb with hb | hb
            · exact absurd hb (by simp)
            · exact pairOfKey_inj (hKvalid a ha) (hKvalid b hb) hf
        simpa using consDedupOpt_map_length pairOfKey none
          ((names.insertionSort pyStrLe).map fun n => n.data.take 7) hinj
      have hlen : (consDedupOpt none ((names.insertionSort pyStrLe).map
            fun n => n.data.take 7)).length =
          (((names.insertionSort pyStrLe).map
            fun n => n.data.take 7).dedup).length := by
        have hfs : (consDedupOpt none ((names.insertionSort pyStrLe).map
              fun n => n.data.take 7)).toFinset =
            (((names.insertionSort pyStrLe).map
              fun n => n.data.take 7).dedup).toFinset := by
          ext k
          simp only [List.mem_toFinset, List.mem_dedup]
          exact hKmem k
        calc (consDedupOpt none ((names.insertionSort pyStrLe).map
              fun n => n.data.take 7)).length
            = (consDedupOpt none ((names.insertionSort pyStrLe).map
              fun n => n.data.take 7)).toFinset.card :=
              (List.toFinset_card_of_nodup hKnodup).symm
          _ = (((names.insertionSort pyStrLe).map
              fun n => n.data.take 7).dedup).toFinset.card := by rw [hfs]
          _ = (((names.insertionSort pyStrLe).map
              fun n => n.data.take 7).dedup).length :=
              List.toFinset_card_of_nodup (List.nodup_dedup _)
      refine ⟨?_, ?_, ?_, ?_, ?_⟩
      · rw [hyitems]
        exact consDedupOpt_nodup pyStrLe hanti none _ hYpair
      · intro y
        rw [hyitems]
        constructor
        · intro hy
          have h2 := consDedupOpt_subset none _ y hy
          rw [hyears] at h2
          exact ((hperm.map yearPrefix).mem_iff).1 h2
        · intro hy
          have hy2 : y ∈ ps.map fun t => t.2.1 := by
            rw [hyears]
            exact ((hperm.map yearPrefix).mem_iff).2 hy
          rcases mem_consDedupOpt none _ y hy2 with h3 | h3
          · exact h3
          · exact absurd h3 (by simp)
      · rw [hmitems, List.length_map, hpairs, hTrans, hlen]
        exact ((hperm.map fun n => n.data.take 7).dedup).length_eq
      · rw [groupsOf_loop_flatten ps none none [] []]
        simp [groupsOf_nil, hnames]
      · intro hne
        have hsne : names.insertionSort pyStrLe ≠ [] := by
          intro hc
          rw [hc] at hperm
          exact hne hperm.symm.eq_nil
        cases hps2 : ps with
        | nil =>
          rw [hps2] at hnames
          exact absurd hnames.symm hsne
        | cons p ps' =>
          obtain ⟨n0, y0, m0⟩ := p
          have hstep : createIndexLoop ((n0, y0, m0) :: ps') none none [] [] =
              createIndexLoop ps' (some y0) (some m0) [n0]
                [.yearH y0, .monthH m0] := by
            simp [createIndexLoop]
          rw [hstep,
            groupsOf_loop_length ps' (some y0) (some m0) [n0]
              [.yearH y0, .monthH m0] (by simp),
            monthHs_loop ps' (some y0) (some m0) [n0]
              [.yearH y0, .monthH m0]]
          simp [groupsOf_nil, groupsOf_yearH, groupsOf_monthH, monthHs_nil,
            monthHs_yearH, monthHs_monthH, Nat.add_comm]
  · decide

/-- Witness for C8 at the spec's concrete example. -/
theorem create_index_grouping_witness :
    (yearHs [.yearH "2021", .monthH "March",
        .group ["2021-03-01_a.html", "2021-03-15_b.html"],
        .yearH "2022", .monthH "January",
        .group ["2022-01-02_c.html"]]).Nodup ∧
    ("2021" ∈ yearHs [.yearH "2021", .monthH "March",
        .group ["2021-03-01_a.html", "2021-03-15_b.html"],
        .yearH "2022", .monthH "January", .group ["2022-01-02_c.html"]] ↔
      "2021" ∈ (["2021-03-01_a.html", "2021-03-15_b.html",
        "2022-01-02_c.html"].map yearPrefix)) ∧
    (["2021-03-01_a.html", "2021-03-15_b.html", "2022-01-02_c.html"] ≠
        ([] : List String) →
      (groupsOf [.yearH "2021", .monthH "March",
        .group ["2021-03-01_a.html", "2021-03-15_b.html"],
        .yearH "2022", .monthH "January",
        .group ["2022-01-02_c.html"]]).length =
      (monthHs [.yearH "2021", .monthH "March",
        .group ["2021-03-01_a.html", "2021-03-15_b.html"],
        .yearH "2022", .monthH "January",
        .group ["2022-01-02_c.html"]]).length) := by
  have h := create_index_grouping.1
    ["2021-03-01_a.html", "2021-03-15_b.html", "2022-01-02_c.html"]
    [.yearH "2021", .monthH "March",
      .group ["2021-03-01_a.html", "2021-03-15_b.html"],
      .yearH "2022", .monthH "January", .group ["2022-01-02_c.html"]]
    create_index_grouping.2
  exact ⟨h.1, h.2.1 "2021", h.2.2.2.2⟩

end Confluence
